import Mathlib

/-!
Verification of the easyprofiler-mcp capture decoder and analysis engine.

The Go sources (`parser/reader.go`, `parser/types.go`, `analyzer/analyzer.go`,
`parser/options.go`) are shallowly embedded below:

* a byte source is a `List Nat` of bytes (each `< 256`), read little-endian;
* Go's `binary.Read` / `io.ReadFull` semantics are modelled by `readInt` /
  `readBytes`: reading from an empty source is an `eof` error (Go `io.EOF`),
  a partial read is an `unexpectedEof` error (Go `io.ErrUnexpectedEOF`);
* Go strings are byte lists; Go maps are association lists updated with
  last-wins insertion (`mapInsert`), iterated in insertion order (Go map
  iteration order is unspecified; none of the verified properties depend
  on the order);
* Go `uint16`/`uint32`/`uint64` arithmetic wraps modulo the width, written
  out explicitly where the source can wrap;
* Go `time.Duration` (an `int64`) is modelled as `Int` via the two's
  complement interpretation `toInt64`; `time.Duration` division truncates
  toward zero and is modelled by `Int.tdiv`;
* a Go runtime panic from an out-of-range slice bound is modelled by the
  dedicated error value `oobSlice` (decoder) or by `Option.none`
  (analyzer slicing), never silently ignored.
-/

namespace EasyProfiler

set_option maxRecDepth 4000

/-- Constants from `parser/types.go`. -/
def EasyProfilerSignature : Nat := 0x45617379

def MinCompatibleVersion : Nat := 0x00010000

def Version130 : Nat := 0x01030000

def Version200 : Nat := 0x02000000

def Version210 : Nat := 0x02010000

/-- Errors a decoding step can produce.  `eof` models Go `io.EOF` (no byte
available), `unexpectedEof` models `io.ErrUnexpectedEOF` (a partial read),
`badSignature`/`badVersion` model the `fmt.Errorf` format errors of
`Parse`/`readThreads`/`readBookmarks`, and `oobSlice` models a Go runtime
panic caused by a slice expression with an out-of-range bound. -/
inductive ParseErr where
  | eof
  | unexpectedEof
  | badSignature
  | badVersion
  | oobSlice
deriving DecidableEq

/-- Little-endian value of a byte list. -/
def leVal (bs : List Nat) : Nat := bs.foldr (fun b acc => b + 256 * acc) 0

/-- Little-endian encoding of `v` on `w` bytes (test-input constructor). -/
def natLE : Nat → Nat → List Nat
  | 0, _ => []
  | w + 1, v => v % 256 :: natLE w (v / 256)

/-- Go `binary.Read` of a `w`-byte little-endian integer. -/
def readInt (w : Nat) (s : List Nat) : Except ParseErr (Nat × List Nat) :=
  if s.isEmpty then .error .eof
  else if s.length < w then .error .unexpectedEof
  else .ok (leVal (s.take w), s.drop w)

/-- Go `io.ReadFull` into a buffer of `n` bytes. -/
def readBytes (n : Nat) (s : List Nat) : Except ParseErr (List Nat × List Nat) :=
  if n = 0 then .ok ([], s)
  else if s.isEmpty then .error .eof
  else if s.length < n then .error .unexpectedEof
  else .ok (s.take n, s.drop n)

/-- `FileHeader` from `parser/types.go`.  All fields hold the raw
little-endian value of the bytes read (for the `int64` field
`cpuFrequency` this is the two's-complement bit pattern). -/
structure FileHeader where
  signature : Nat
  version : Nat
  pid : Nat
  cpuFrequency : Nat
  beginTime : Nat
  endTime : Nat
  memorySize : Nat
  descriptorsMemorySize : Nat
  blocksCount : Nat
  descriptorsCount : Nat
  threadsCount : Nat
  bookmarksCount : Nat
  padding : Nat
deriving DecidableEq

/-- `readHeader` from `parser/reader.go`.  Fields not read for a given
version keep Go's zero value. -/
def readHeader (s : List Nat) : Except ParseErr (FileHeader × List Nat) := do
  let (sig, s) ← readInt 4 s
  let (ver, s) ← readInt 4 s
  let (pid, s) ← if ver < Version130 then readInt 4 s else readInt 8 s
  let (cpuFreq, s) ← readInt 8 s
  let (beginTime, s) ← readInt 8 s
  let (endTime, s) ← readInt 8 s
  if ver < Version200 then
    let (blocksCount, s) ← readInt 4 s
    let (memorySize, s) ← readInt 8 s
    let (descriptorsCount, s) ← readInt 4 s
    let (descriptorsMemorySize, s) ← readInt 8 s
    return ({ signature := sig, version := ver, pid := pid,
              cpuFrequency := cpuFreq, beginTime := beginTime,
              endTime := endTime, memorySize := memorySize,
              descriptorsMemorySize := descriptorsMemorySize,
              blocksCount := blocksCount, descriptorsCount := descriptorsCount,
              threadsCount := 0, bookmarksCount := 0, padding := 0 }, s)
  else
    let (memorySize, s) ← readInt 8 s
    let (descriptorsMemorySize, s) ← readInt 8 s
    let (blocksCount, s) ← readInt 4 s
    let (descriptorsCount, s) ← readInt 4 s
    if Version210 ≤ ver then
      let (threadsCount, s) ← readInt 4 s
      let (bookmarksCount, s) ← readInt 2 s
      let (padding, s) ← readInt 2 s
      return ({ signature := sig, version := ver, pid := pid,
                cpuFrequency := cpuFreq, beginTime := beginTime,
                endTime := endTime, memorySize := memorySize,
                descriptorsMemorySize := descriptorsMemorySize,
                blocksCount := blocksCount, descriptorsCount := descriptorsCount,
                threadsCount := threadsCount, bookmarksCount := bookmarksCount,
                padding := padding }, s)
    else
      return ({ signature := sig, version := ver, pid := pid,
                cpuFrequency := cpuFreq, beginTime := beginTime,
                endTime := endTime, memorySize := memorySize,
                descriptorsMemorySize := descriptorsMemorySize,
                blocksCount := blocksCount, descriptorsCount := descriptorsCount,
                threadsCount := 0, bookmarksCount := 0, padding := 0 }, s)

/-- The four header layout families of the spec. -/
inductive HeaderFamily where
  | oldest
  | mid
  | newer
  | newest
deriving DecidableEq

/-- Field values used to synthesize a header (test-input record). -/
structure HeaderFields where
  pid : Nat
  cpuFrequency : Nat
  beginTime : Nat
  endTime : Nat
  memorySize : Nat
  descriptorsMemorySize : Nat
  blocksCount : Nat
  descriptorsCount : Nat
  threadsCount : Nat
  bookmarksCount : Nat
  padding : Nat

/-- Version-range constraint selecting each layout family
(thresholds from `readHeader`). -/
def versionInFamily : HeaderFamily → Nat → Prop
  | .oldest, v => v < Version130
  | .mid, v => Version130 ≤ v ∧ v < Version200
  | .newer, v => Version200 ≤ v ∧ v < Version210
  | .newest, v => Version210 ≤ v ∧ v < 2 ^ 32

/-- Width of the process id field per family. -/
def pidWidth : HeaderFamily → Nat
  | .oldest => 4
  | _ => 8

/-- Synthetic on-disk header bytes for a family (layouts per the format). -/
def encodeHeader (f : HeaderFamily) (sig ver : Nat) (h : HeaderFields) : List Nat :=
  natLE 4 sig ++ natLE 4 ver ++ natLE (pidWidth f) h.pid ++
  natLE 8 h.cpuFrequency ++ natLE 8 h.beginTime ++ natLE 8 h.endTime ++
  (match f with
   | .oldest | .mid =>
       natLE 4 h.blocksCount ++ natLE 8 h.memorySize ++
       natLE 4 h.descriptorsCount ++ natLE 8 h.descriptorsMemorySize
   | .newer =>
       natLE 8 h.memorySize ++ natLE 8 h.descriptorsMemorySize ++
       natLE 4 h.blocksCount ++ natLE 4 h.descriptorsCount
   | .newest =>
       natLE 8 h.memorySize ++ natLE 8 h.descriptorsMemorySize ++
       natLE 4 h.blocksCount ++ natLE 4 h.descriptorsCount ++
       natLE 4 h.threadsCount ++ natLE 2 h.bookmarksCount ++ natLE 2 h.padding)

/-- The `FileHeader` a correct decode of `encodeHeader` must produce:
exactly the encoded values, with fields absent from the family zero. -/
def expectedHeader (f : HeaderFamily) (sig ver : Nat) (h : HeaderFields) : FileHeader :=
  { signature := sig, version := ver, pid := h.pid,
    cpuFrequency := h.cpuFrequency, beginTime := h.beginTime,
    endTime := h.endTime, memorySize := h.memorySize,
    descriptorsMemorySize := h.descriptorsMemorySize,
    blocksCount := h.blocksCount, descriptorsCount := h.descriptorsCount,
    threadsCount := match f with | .newest => h.threadsCount | _ => 0,
    bookmarksCount := match f with | .newest => h.bookmarksCount | _ => 0,
    padding := match f with | .newest => h.padding | _ => 0 }

/-- All field values lie within their on-disk widths. -/
def fieldsInRange (f : HeaderFamily) (h : HeaderFields) : Prop :=
  h.pid < 2 ^ (8 * pidWidth f) ∧ h.cpuFrequency < 2 ^ 64 ∧
  h.beginTime < 2 ^ 64 ∧ h.endTime < 2 ^ 64 ∧ h.memorySize < 2 ^ 64 ∧
  h.descriptorsMemorySize < 2 ^ 64 ∧ h.blocksCount < 2 ^ 32 ∧
  h.descriptorsCount < 2 ^ 32 ∧ h.threadsCount < 2 ^ 32 ∧
  h.bookmarksCount < 2 ^ 16 ∧ h.padding < 2 ^ 16

/-- `BlockDescriptor` from `parser/types.go`; `line` holds the raw 32-bit
pattern of the `int32`, strings are byte lists. -/
structure BlockDescriptor where
  id : Nat
  line : Nat
  color : Nat
  type_ : Nat
  status : Nat
  name : List Nat
  file : List Nat
deriving DecidableEq

/-- `readDescriptor` from `parser/reader.go`.  The remaining-size
computation `size - (4+4+4+1+1+2+nameLength)` is Go `uint16` arithmetic
and therefore wraps modulo `2 ^ 16` (inner sum first, then the
subtraction); `nameBytes[:len(nameBytes)-1]` on an empty buffer is a Go
runtime panic, modelled by `.error .oobSlice`. -/
def readDescriptor (s : List Nat) : Except ParseErr (BlockDescriptor × List Nat) := do
  let (size, s) ← readInt 2 s
  let (id, s) ← readInt 4 s
  let (line, s) ← readInt 4 s
  let (color, s) ← readInt 4 s
  let (type_, s) ← readInt 1 s
  let (status, s) ← readInt 1 s
  let (nameLength, s) ← readInt 2 s
  let (nameBytes, s) ← readBytes nameLength s
  if nameBytes.length = 0 then
    .error .oobSlice
  else
    let name := nameBytes.take (nameBytes.length - 1)
    let remainingSize := (size + 65536 - (16 + nameLength) % 65536) % 65536
    if remainingSize > 0 then
      let (fileBytes, s) ← readBytes remainingSize s
      return ({ id := id, line := line, color := color, type_ := type_,
                status := status, name := name,
                file := fileBytes.take (fileBytes.length - 1) }, s)
    else
      return ({ id := id, line := line, color := color, type_ := type_,
                status := status, name := name, file := [] }, s)

/-- Go map assignment `m[k] = v` on an association list (last write wins,
insertion order preserved). -/
def mapInsert (k : Nat) (v : α) : List (Nat × α) → List (Nat × α)
  | [] => [(k, v)]
  | (k2, v2) :: rest =>
      if k2 = k then (k, v) :: rest else (k2, v2) :: mapInsert k v rest

/-- Go map read `m[k]` on an association list. -/
def mapLookup (k : Nat) : List (Nat × α) → Option α
  | [] => none
  | (k2, v2) :: rest => if k2 = k then some v2 else mapLookup k rest

/-- `readDescriptors` from `parser/reader.go`: read exactly `count`
descriptors, inserting each into the descriptor map keyed by its ID. -/
def readDescriptors (count : Nat) (descs : List (Nat × BlockDescriptor))
    (s : List Nat) : Except ParseErr (List (Nat × BlockDescriptor) × List Nat) :=
  match count with
  | 0 => .ok (descs, s)
  | count + 1 => do
      let (d, s) ← readDescriptor s
      readDescriptors count (mapInsert d.id d descs) s

/-- Concrete descriptor record whose declared total size 17 is
inconsistent with its name-length field 2 (the true remainder
17 − (16 + 2) is negative), followed by 65535 further bytes. -/
def cexDescStream : List Nat :=
  natLE 2 17 ++ natLE 4 1 ++ natLE 4 2 ++ natLE 4 3 ++ natLE 1 1 ++
  natLE 1 0 ++ natLE 2 2 ++ [97, 0] ++ (List.replicate 65534 1 ++ [0])

/-- `ReadOptions` from `parser/options.go` (the `ProgressCallback` field is
never consulted by the reader and is omitted). -/
structure ReadOptions where
  maxBlockDepth : Int
  sampleBlocks : Int
  skipContextSwitches : Bool
  skipBookmarks : Bool
  maxThreads : Int
deriving DecidableEq

/-- `DefaultReadOptions` from `parser/options.go`. -/
def DefaultReadOptions : ReadOptions :=
  { maxBlockDepth := 0, sampleBlocks := 0, skipContextSwitches := false,
    skipBookmarks := false, maxThreads := 0 }

/-- `FastReadOptions` from `parser/options.go`. -/
def FastReadOptions : ReadOptions :=
  { maxBlockDepth := 5, sampleBlocks := 10, skipContextSwitches := true,
    skipBookmarks := true, maxThreads := 0 }

mutual
/-- `Block` from `parser/types.go`; Go `[]*Block` children are a dedicated
sequence type (`BlockSeq`) so that recursion over the tree is structural. -/
inductive Block where
  | mk (begin_ end_ id : Nat) (name : List Nat) (children : BlockSeq)
inductive BlockSeq where
  | nil
  | cons (b : Block) (bs : BlockSeq)
end

def Block.begin_ : Block → Nat
  | .mk b _ _ _ _ => b

def Block.end_ : Block → Nat
  | .mk _ e _ _ _ => e

def Block.id : Block → Nat
  | .mk _ _ i _ _ => i

def Block.name : Block → List Nat
  | .mk _ _ _ n _ => n

def Block.children : Block → BlockSeq
  | .mk _ _ _ _ c => c

/-- Two's-complement reading of a 64-bit pattern (Go `int64`/`time.Duration`). -/
def toInt64 (n : Nat) : Int :=
  if n % 18446744073709551616 < 9223372036854775808 then
    (n % 18446744073709551616 : Int)
  else (n % 18446744073709551616 : Int) - 18446744073709551616

/-- Go `uint64` subtraction `a - b` (wraps modulo `2 ^ 64`). -/
def wrapSub64 (a b : Nat) : Nat :=
  (a % 18446744073709551616 + 18446744073709551616 -
    b % 18446744073709551616) % 18446744073709551616

/-- `Block.Duration` from `parser/types.go`:
`time.Duration(b.End - b.Begin)` — a wrapped `uint64` difference
reinterpreted as a signed 64-bit `time.Duration`. -/
def Block.duration (blk : Block) : Int := toInt64 (wrapSub64 blk.end_ blk.begin_)

/-- `ContextSwitch` from `parser/types.go`. -/
structure ContextSwitch where
  begin_ : Nat
  end_ : Nat
  threadId : Nat
  name : List Nat
deriving DecidableEq

/-- `ThreadData` from `parser/types.go`. -/
structure ThreadData where
  threadId : Nat
  threadName : List Nat
  contextSwitches : List ContextSwitch
  blocks : BlockSeq

/-- `Bookmark` from `parser/types.go`. -/
structure Bookmark where
  position : Nat
  color : Nat
  text : List Nat
deriving DecidableEq

/-- `ProfileData` from `parser/types.go`; the two Go maps are association
lists in insertion order. -/
structure ProfileData where
  header : FileHeader
  descriptors : List (Nat × BlockDescriptor)
  threads : List (Nat × ThreadData)
  bookmarks : List Bookmark
  totalBlocksCount : Nat
  memoryUsedBytes : Int

mutual
/-- `countBlocks` from `parser/types.go` (count of every node of a
forest, children included), with `countBlock` for a single tree. -/
def countBlock : Block → Nat
  | .mk _ _ _ _ cs => 1 + countBlocks cs
def countBlocks : BlockSeq → Nat
  | .nil => 0
  | .cons b bs => countBlock b + countBlocks bs
end

/-- Total block count over a thread map (`ProfileData.GetBlocksCount`). -/
def totalBlocksOf (threads : List (Nat × ThreadData)) : Nat :=
  threads.foldl (fun acc t => acc + countBlocks t.2.blocks) 0

def GetBlocksCount (p : ProfileData) : Nat := totalBlocksOf p.threads

/-- `ProfileData.GetTotalDuration`: `time.Duration(EndTime - BeginTime)`. -/
def GetTotalDuration (p : ProfileData) : Int :=
  toInt64 (wrapSub64 p.header.endTime p.header.beginTime)

/-- `readContextSwitch` from `parser/reader.go`; `size - 24` is `uint16`
arithmetic; the name terminator is stripped unconditionally. -/
def readContextSwitch (s : List Nat) : Except ParseErr (ContextSwitch × List Nat) := do
  let (size, s) ← readInt 2 s
  let (threadId, s) ← readInt 8 s
  let (begin_, s) ← readInt 8 s
  let (end_, s) ← readInt 8 s
  let remainingSize := (size + 65536 - 24) % 65536
  if remainingSize > 0 then
    let (nameBytes, s) ← readBytes remainingSize s
    return ({ begin_ := begin_, end_ := end_, threadId := threadId,
              name := nameBytes.take (nameBytes.length - 1) }, s)
  else
    return ({ begin_ := begin_, end_ := end_, threadId := threadId,
              name := [] }, s)

/-- `readBlock` from `parser/reader.go`; `size - 20` is `uint16`
arithmetic; the name terminator is stripped only when the final byte is 0;
children are never populated by the decoder. -/
def readBlock (s : List Nat) : Except ParseErr (Block × List Nat) := do
  let (size, s) ← readInt 2 s
  let (begin_, s) ← readInt 8 s
  let (end_, s) ← readInt 8 s
  let (id, s) ← readInt 4 s
  let remainingSize := (size + 65536 - 20) % 65536
  if remainingSize > 0 then
    let (nameBytes, s) ← readBytes remainingSize s
    let name := if nameBytes ≠ [] ∧ nameBytes.getLast? = some 0 then
        nameBytes.dropLast else nameBytes
    return (.mk begin_ end_ id name .nil, s)
  else
    return (.mk begin_ end_ id [] .nil, s)

/-- The skip-loop of `readThread` under `SkipContextSwitches`: read each
record size and `Seek` forward (a file seek past the end succeeds; later
reads then hit end-of-stream, which `List.drop` models exactly). -/
def skipContextSwitchRecords (n : Nat) (s : List Nat) : Except ParseErr (List Nat) :=
  match n with
  | 0 => .ok s
  | n + 1 => do
      let (size, s) ← readInt 2 s
      skipContextSwitchRecords n (s.drop size)

/-- The context-switch loop of `readThread`. -/
def readContextSwitches (n : Nat) (s : List Nat) :
    Except ParseErr (List ContextSwitch × List Nat) :=
  match n with
  | 0 => .ok ([], s)
  | n + 1 => do
      let (cs, s) ← readContextSwitch s
      let (rest, s) ← readContextSwitches n s
      return (cs :: rest, s)

/-- The block loop of `readThread`. -/
def readBlocks (n : Nat) (s : List Nat) : Except ParseErr (BlockSeq × List Nat) :=
  match n with
  | 0 => .ok (.nil, s)
  | n + 1 => do
      let (b, s) ← readBlock s
      let (rest, s) ← readBlocks n s
      return (.cons b rest, s)

/-- `readThread` from `parser/reader.go` (thread names are raw bytes, no
terminator stripped). -/
def readThread (opts : ReadOptions) (threadId : Nat) (s : List Nat) :
    Except ParseErr (ThreadData × List Nat) := do
  let (nameSize, s) ← readInt 2 s
  let (nameBytes, s) ← if nameSize > 0 then readBytes nameSize s else .ok ([], s)
  let (csCount, s) ← readInt 4 s
  let (contextSwitches, s) ←
    if opts.skipContextSwitches then do
      let s ← skipContextSwitchRecords csCount s
      .ok (([] : List ContextSwitch), s)
    else readContextSwitches csCount s
  let (blocksCount, s) ← readInt 4 s
  let (blocks, s) ← readBlocks blocksCount s
  return ({ threadId := threadId, threadName := nameBytes,
            contextSwitches := contextSwitches, blocks := blocks }, s)

/-- The after-loop end-signature read of `readThreads`: end-of-stream is
accepted only when exactly the expected number of threads was read. -/
def readThreadsEnd (expectedThreads threadsRead : Nat)
    (threads : List (Nat × ThreadData)) (s : List Nat) :
    Except ParseErr (List (Nat × ThreadData) × List Nat) :=
  match readInt 4 s with
  | .error .eof =>
      if threadsRead = expectedThreads then .ok (threads, s) else .error .eof
  | .error e => .error e
  | .ok (signature, s) =>
      if signature = EasyProfilerSignature then .ok (threads, s)
      else .error .badSignature

/-- The thread loop of `readThreads`.  The Go loop
`for threadsRead < expectedThreads` is phrased structurally on
`remaining = expectedThreads - threadsRead`, which the caller seeds with
`expectedThreads`; a loop iteration decrements `remaining` exactly when
Go increments `threadsRead`. -/
def readThreadsAux (opts : ReadOptions) (version expectedThreads : Nat) :
    Nat → Nat → List (Nat × ThreadData) → List Nat →
    Except ParseErr (List (Nat × ThreadData) × List Nat)
  | 0, threadsRead, threads, s =>
      readThreadsEnd expectedThreads threadsRead threads s
  | remaining + 1, threadsRead, threads, s =>
      if version < Version130 then
        match readInt 4 s with
        | .error .eof => readThreadsEnd expectedThreads threadsRead threads s
        | .error e => .error e
        | .ok (threadId32, s) =>
            if threadId32 = EasyProfilerSignature ∧
                expectedThreads = 4294967295 then
              .ok (threads, s)
            else
              match readThread opts threadId32 s with
              | .error e => .error e
              | .ok (t, s) =>
                  readThreadsAux opts version expectedThreads remaining
                    (threadsRead + 1) (mapInsert threadId32 t threads) s
      else
        match readInt 8 s with
        | .error .eof => readThreadsEnd expectedThreads threadsRead threads s
        | .error e => .error e
        | .ok (threadId, s) =>
            if threadId % 4294967296 = EasyProfilerSignature ∧
                expectedThreads = 4294967295 then
              .ok (threads, s)
            else
              match readThread opts threadId s with
              | .error e => .error e
              | .ok (t, s) =>
                  readThreadsAux opts version expectedThreads remaining
                    (threadsRead + 1) (mapInsert threadId t threads) s

/-- `readThreads` from `parser/reader.go`. -/
def readThreads (opts : ReadOptions) (hdr : FileHeader) (s : List Nat) :
    Except ParseErr (List (Nat × ThreadData) × List Nat) :=
  let expectedThreads :=
    if hdr.version < Version210 then 4294967295 else hdr.threadsCount
  readThreadsAux opts hdr.version expectedThreads expectedThreads 0 [] s

/-- `readBookmark` from `parser/reader.go`; `size - 12` is `uint16`
arithmetic. -/
def readBookmark (s : List Nat) : Except ParseErr (Bookmark × List Nat) := do
  let (size, s) ← readInt 2 s
  let (position, s) ← readInt 8 s
  let (color, s) ← readInt 4 s
  let remainingSize := (size + 65536 - 12) % 65536
  if remainingSize > 0 then
    let (textBytes, s) ← readBytes remainingSize s
    return ({ position := position, color := color,
              text := textBytes.take (textBytes.length - 1) }, s)
  else
    return ({ position := position, color := color, text := [] }, s)

/-- The bookmark loop of `readBookmarks`. -/
def readBookmarksLoop (n : Nat) (s : List Nat) :
    Except ParseErr (List Bookmark × List Nat) :=
  match n with
  | 0 => .ok ([], s)
  | n + 1 => do
      let (b, s) ← readBookmark s
      let (rest, s) ← readBookmarksLoop n s
      return (b :: rest, s)

/-- `readBookmarks` from `parser/reader.go`: the declared count of
records, then a validated 32-bit end signature. -/
def readBookmarks (count : Nat) (s : List Nat) :
    Except ParseErr (List Bookmark × List Nat) := do
  let (bookmarks, s) ← readBookmarksLoop count s
  let (signature, s) ← readInt 4 s
  if signature = EasyProfilerSignature then return (bookmarks, s)
  else .error .badSignature

/-- `Reader.Parse` from `parser/reader.go`: header, signature and version
validation, descriptors, threads, optional bookmarks, derived counters. -/
def Parse (opts : ReadOptions) (s : List Nat) : Except ParseErr ProfileData := do
  let (header, s) ← readHeader s
  if header.signature ≠ EasyProfilerSignature then .error .badSignature
  else if header.version < MinCompatibleVersion then .error .badVersion
  else
    let (descriptors, s) ← readDescriptors header.descriptorsCount [] s
    let (threads, s) ← readThreads opts header s
    let (bookmarks, _s) ←
      if ¬ opts.skipBookmarks ∧ Version210 ≤ header.version ∧
          header.bookmarksCount > 0 then
        readBookmarks header.bookmarksCount s
      else .ok (([] : List Bookmark), s)
    return { header := header, descriptors := descriptors, threads := threads,
             bookmarks := bookmarks, totalBlocksCount := totalBlocksOf threads,
             memoryUsedBytes := toInt64 header.memorySize }

/-- Header of an oldest-family capture (version v0.1.0) used to exercise
the thread-list end-of-stream behaviour. -/
def hdrOldC3 : FileHeader :=
  { signature := EasyProfilerSignature, version := 0x00010000, pid := 0,
    cpuFrequency := 0, beginTime := 0, endTime := 0, memorySize := 0,
    descriptorsMemorySize := 0, blocksCount := 0, descriptorsCount := 0,
    threadsCount := 0, bookmarksCount := 0, padding := 0 }

/-- One complete empty thread record (id 5), after which the stream ends
with neither a sentinel thread id nor an end signature. -/
def c3Stream : List Nat := natLE 4 5 ++ (natLE 2 0 ++ natLE 4 0 ++ natLE 4 0)

def c3Thread : ThreadData :=
  { threadId := 5, threadName := [], contextSwitches := [], blocks := .nil }

/-- A newest-family capture: version 2.1.0 header declaring 2 threads and
0 bookmarks, thread 1 with two plain blocks, thread 2 with one, then the
end signature. -/
def c4Header : List Nat :=
  natLE 4 0x45617379 ++ natLE 4 0x02010000 ++ natLE 8 77 ++ natLE 8 1000 ++
  natLE 8 16 ++ natLE 8 32 ++ natLE 8 5000 ++ natLE 8 600 ++ natLE 4 3 ++
  natLE 4 0 ++ natLE 4 2 ++ natLE 2 0 ++ natLE 2 0

def c4Block (b e id : Nat) : List Nat :=
  natLE 2 20 ++ natLE 8 b ++ natLE 8 e ++ natLE 4 id

def c4Stream : List Nat :=
  c4Header ++
  (natLE 8 1 ++ natLE 2 0 ++ natLE 4 0 ++ natLE 4 2 ++ c4Block 0 5 7 ++
    c4Block 5 9 7) ++
  (natLE 8 2 ++ natLE 2 0 ++ natLE 4 0 ++ natLE 4 1 ++ c4Block 0 3 8) ++
  natLE 4 0x45617379

/-- The full decode of `c4Stream`: both threads, all three blocks. -/
def c4Expected : ProfileData :=
  { header := { signature := 0x45617379, version := 0x02010000, pid := 77,
                cpuFrequency := 1000, beginTime := 16, endTime := 32,
                memorySize := 5000, descriptorsMemorySize := 600,
                blocksCount := 3, descriptorsCount := 0, threadsCount := 2,
                bookmarksCount := 0, padding := 0 },
    descriptors := [], bookmarks := [],
    threads := [(1, { threadId := 1, threadName := [], contextSwitches := [],
                      blocks := .cons (.mk 0 5 7 [] .nil)
                        (.cons (.mk 5 9 7 [] .nil) .nil) }),
                (2, { threadId := 2, threadName := [], contextSwitches := [],
                      blocks := .cons (.mk 0 3 8 [] .nil) .nil })],
    totalBlocksCount := 3, memoryUsedBytes := 5000 }

/-- Fast-path options requesting block depth at most 1, only every 2nd
block, and at most 1 thread. -/
def c4Opts : ReadOptions :=
  { maxBlockDepth := 1, sampleBlocks := 2, skipContextSwitches := false,
    skipBookmarks := false, maxThreads := 1 }

/-- `BlockInfo` from `analyzer/analyzer.go` (the fields `Name`, `File`,
`ThreadName` are byte lists; `Line` holds the raw 32-bit `int32`
pattern). -/
structure BlockInfo where
  name : List Nat
  file : List Nat
  line : Nat
  duration : Int
  callCount : Nat
  threadId : Nat
  threadName : List Nat
  avgDuration : Int
deriving DecidableEq

/-- Go `int64` wrap-around of an integer (`+`/`-` on `time.Duration`). -/
def wrapInt64 (x : Int) : Int :=
  (x + 9223372036854775808) % 18446744073709551616 - 9223372036854775808

/-- Name resolution shared by the analyzer: the runtime name, else the
descriptor name when a descriptor exists. -/
def resolvedName (descriptor : Option BlockDescriptor)
    (blockName : List Nat) : List Nat :=
  match descriptor with
  | some d => if blockName = [] then d.name else blockName
  | none => blockName

mutual
/-- `analyzeBlocksRecursive` from `analyzer/analyzer.go`: flatten a forest
into `BlockInfo`s, parent before children (`analyzeBlock` handles one
tree). -/
def analyzeBlock (descs : List (Nat × BlockDescriptor)) (threadId : Nat)
    (threadName : List Nat) : Block → List BlockInfo
  | .mk begin_ end_ id bname children =>
      let descriptor := mapLookup id descs
      { name := resolvedName descriptor bname,
        file := match descriptor with | some d => d.file | none => [],
        line := match descriptor with | some d => d.line | none => 0,
        duration := toInt64 (wrapSub64 end_ begin_), callCount := 1,
        threadId := threadId, threadName := threadName, avgDuration := 0 } ::
        analyzeBlocks descs threadId threadName children
def analyzeBlocks (descs : List (Nat × BlockDescriptor)) (threadId : Nat)
    (threadName : List Nat) : BlockSeq → List BlockInfo
  | .nil => []
  | .cons b bs =>
      analyzeBlock descs threadId threadName b ++
        analyzeBlocks descs threadId threadName bs
end

/-- One insertion step of the insertion sort modelling `sort.Slice` with
`less i j = key i > key j`. -/
def insertByKeyDesc (key : α → Int) (a : α) : List α → List α
  | [] => [a]
  | b :: bs =>
      if key b ≤ key a then a :: b :: bs else b :: insertByKeyDesc key a bs

/-- Model of `sort.Slice(xs, func(i, j) { return key(xs[i]) > key(xs[j]) })`:
`sort.Slice` returns some permutation ordered non-increasingly by `key`;
this insertion sort is one such permutation, and no verified property
depends on which sorted permutation is produced. -/
def sortByKeyDesc (key : α → Int) (l : List α) : List α :=
  l.foldr (insertByKeyDesc key) []

/-- Go slice expression `xs[:k]` on an `int` bound: a bound below zero or
beyond the length is a runtime panic, modelled by `none`. -/
def goSliceTo (xs : List α) (k : Int) : Option (List α) :=
  if 0 ≤ k ∧ k ≤ (xs.length : Int) then some (xs.take k.toNat) else none

/-- `Analyzer.GetSlowestBlocks` from `analyzer/analyzer.go`. -/
def GetSlowestBlocks (p : ProfileData) (limit : Int) : Option (List BlockInfo) :=
  let allBlocks := p.threads.foldr
    (fun t acc => analyzeBlocks p.descriptors t.1 t.2.threadName t.2.blocks ++ acc) []
  let sorted := sortByKeyDesc (fun b => b.duration) allBlocks
  let limit2 := if limit > (sorted.length : Int) then (sorted.length : Int) else limit
  goSliceTo sorted limit2

/-- `ThreadStats` from `analyzer/analyzer.go`; `percentOfTotal` is a Go
`float64` modelled as the exact rational it approximates. -/
structure ThreadStats where
  threadId : Nat
  threadName : List Nat
  totalDuration : Int
  blockCount : Nat
  contextSwitches : Nat
  avgBlockDuration : Int
  percentOfTotal : ℚ
deriving DecidableEq

/-- The accumulation loop of `calculateThreadDuration`. -/
def calcThreadDurationAux (total : Int) : BlockSeq → Int
  | .nil => total
  | .cons b bs => calcThreadDurationAux (wrapInt64 (total + Block.duration b)) bs

/-- `calculateThreadDuration` from `analyzer/analyzer.go`: sum of the
durations of the top-level blocks only (children not added), with Go
`int64` wrap-around on each addition. -/
def calculateThreadDuration (bs : BlockSeq) : Int := calcThreadDurationAux 0 bs

/-- The loop body of `GetThreadStatistics`: the statistics record built
for one thread (`Analyzer.countBlocks` is literally the parser
`countBlocks`; `avgBlockDuration` is `time.Duration` integer division). -/
def mkThreadStats (p : ProfileData) (t : Nat × ThreadData) : ThreadStats :=
  let threadDuration := calculateThreadDuration t.2.blocks
  let blockCount := countBlocks t.2.blocks
  { threadId := t.1, threadName := t.2.threadName,
    totalDuration := threadDuration, blockCount := blockCount,
    contextSwitches := t.2.contextSwitches.length,
    avgBlockDuration :=
      if blockCount > 0 then Int.tdiv threadDuration blockCount else 0,
    percentOfTotal :=
      if 0 < GetTotalDuration p then
        (threadDuration : ℚ) / (GetTotalDuration p : ℚ) * 100
      else 0 }

/-- `Analyzer.GetThreadStatistics` from `analyzer/analyzer.go`:
per-thread statistics sorted by descending total duration. -/
def GetThreadStatistics (p : ProfileData) : List ThreadStats :=
  sortByKeyDesc (fun st => st.totalDuration) (p.threads.map (mkThreadStats p))

/-- Decimal ASCII digits of a natural number (`fmt`'s `%d`). -/
def natDec (n : Nat) : List Nat := (Nat.toDigits 10 n).map (fun c => c.toNat)

/-- Two's-complement reading of a 32-bit pattern (Go `int32`). -/
def toInt32 (n : Nat) : Int :=
  if n % 4294967296 < 2147483648 then (n % 4294967296 : Int)
  else (n % 4294967296 : Int) - 4294967296

/-- `%d` rendering of an `int32` stored as its raw pattern. -/
def int32Dec (n : Nat) : List Nat :=
  if toInt32 n < 0 then 45 :: natDec (toInt32 n).natAbs
  else natDec (toInt32 n).toNat

/-- The aggregation key of `aggregateBlocks`:
`fmt.Sprintf("%s:%s:%d", name, descriptor.File, descriptor.Line)` when a
descriptor exists, else the resolved name alone (58 is the colon). -/
def hotspotKey (descriptor : Option BlockDescriptor) (name : List Nat) : List Nat :=
  match descriptor with
  | some d => name ++ [58] ++ d.file ++ [58] ++ int32Dec d.line
  | none => name

/-- The `blockMap` update of `aggregateBlocks`: accumulate duration and
call count on an existing key, else insert the fresh `BlockInfo`. -/
def bumpBucket (key : List Nat) (info : BlockInfo) :
    List (List Nat × BlockInfo) → List (List Nat × BlockInfo)
  | [] => [(key, info)]
  | (k, i) :: rest =>
      if k = key then
        (k, { i with duration := wrapInt64 (i.duration + info.duration),
                     callCount := i.callCount + 1 }) :: rest
      else (k, i) :: bumpBucket key info rest

mutual
/-- `aggregateBlocks` from `analyzer/analyzer.go` (every node of every
tree is bucketed; `aggregateBlock` handles one tree). -/
def aggregateBlock (descs : List (Nat × BlockDescriptor)) (threadId : Nat)
    (threadName : List Nat) (acc : List (List Nat × BlockInfo)) :
    Block → List (List Nat × BlockInfo)
  | .mk begin_ end_ id bname children =>
      let descriptor := mapLookup id descs
      let name := resolvedName descriptor bname
      aggregateBlocks descs threadId threadName
        (bumpBucket (hotspotKey descriptor name)
          { name := name,
            file := match descriptor with | some d => d.file | none => [],
            line := match descriptor with | some d => d.line | none => 0,
            duration := toInt64 (wrapSub64 end_ begin_), callCount := 1,
            threadId := threadId, threadName := threadName,
            avgDuration := 0 } acc) children
def aggregateBlocks (descs : List (Nat × BlockDescriptor)) (threadId : Nat)
    (threadName : List Nat) (acc : List (List Nat × BlockInfo)) :
    BlockSeq → List (List Nat × BlockInfo)
  | .nil => acc
  | .cons b bs =>
      aggregateBlocks descs threadId threadName
        (aggregateBlock descs threadId threadName acc b) bs
end

/-- `Analyzer.GetHotspots` from `analyzer/analyzer.go`. -/
def GetHotspots (p : ProfileData) (limit : Int) : Option (List BlockInfo) :=
  let blockMap := p.threads.foldl
    (fun acc t => aggregateBlocks p.descriptors t.1 t.2.threadName acc t.2.blocks) []
  let hotspots := blockMap.map (fun kv =>
    if kv.2.callCount > 0 then
      { kv.2 with avgDuration := Int.tdiv kv.2.duration (kv.2.callCount : Int) }
    else kv.2)
  let sorted := sortByKeyDesc (fun b => b.duration) hotspots
  let limit2 := if limit > (sorted.length : Int) then (sorted.length : Int) else limit
  goSliceTo sorted limit2

inductive Severity where
  | high
  | medium
  | low
deriving DecidableEq

inductive IssueKind where
  | longBlockingOperation
  | threadImbalance
  | excessiveContextSwitches
  | hotFunction
deriving DecidableEq

/-- `PerformanceIssue` from `analyzer/analyzer.go` (the formatted
`Description`/`Location` strings are presentation only and not modelled). -/
structure PerformanceIssue where
  type_ : IssueKind
  severity : Severity
  duration : Int
  threadId : Nat
  threadName : List Nat
deriving DecidableEq

/-- `detectThreadImbalance` from `analyzer/analyzer.go`: statistics are
sorted descending, so `stats[0]`/`stats[len-1]` are max/min; the Go test
`float64(max)/float64(min) > 2.0` is modelled as the exact rational
comparison (identical whenever both durations are below `2^53`, hence on
every capture a profiler can produce); the guard `min > 0` is evaluated
first exactly as in the source. -/
def detectThreadImbalance (p : ProfileData) : List PerformanceIssue :=
  match GetThreadStatistics p with
  | [] => []
  | [_] => []
  | s0 :: s1 :: rest =>
      let maxDuration := s0.totalDuration
      let minDuration := ((s1 :: rest).getLast (List.cons_ne_nil s1 rest)).totalDuration
      if 0 < minDuration ∧ (2 : ℚ) < (maxDuration : ℚ) / (minDuration : ℚ) then
        [{ type_ := .threadImbalance, severity := .medium,
           duration := wrapInt64 (maxDuration - minDuration), threadId := 0,
           threadName := [] }]
      else []

/-- All-zero header for concrete analyzer models. -/
def hdrZero : FileHeader :=
  { signature := EasyProfilerSignature, version := 0x00010000, pid := 0,
    cpuFrequency := 0, beginTime := 0, endTime := 0, memorySize := 0,
    descriptorsMemorySize := 0, blocksCount := 0, descriptorsCount := 0,
    threadsCount := 0, bookmarksCount := 0, padding := 0 }

/-- One thread holding two blocks of the same name (102 = byte of f) with
durations 1 and 2. -/
def c6Thread : ThreadData :=
  { threadId := 1, threadName := [], contextSwitches := [],
    blocks := .cons (.mk 0 1 0 [102] .nil) (.cons (.mk 0 2 0 [102] .nil) .nil) }

def c6Model : ProfileData :=
  { header := hdrZero, descriptors := [], threads := [(1, c6Thread)],
    bookmarks := [], totalBlocksCount := 2, memoryUsedBytes := 0 }

/-- The single hotspot bucket aggregated from `c6Model`: total duration 3
over 2 calls, truncated average 1. -/
def c6Bucket : BlockInfo :=
  { name := [102], file := [], line := 0, duration := 3, callCount := 2,
    threadId := 1, threadName := [], avgDuration := 1 }

/-- The per-thread total durations of a model, in thread order (the
values the thread-imbalance rule ranges over). -/
def threadTotals (p : ProfileData) : List Int :=
  p.threads.map (fun t => calculateThreadDuration t.2.blocks)

/-- Thread with a single 100 ms (in nanoseconds) top-level block. -/
def c7ThreadA : ThreadData :=
  { threadId := 1, threadName := [], contextSwitches := [],
    blocks := .cons (.mk 0 100000000 0 [] .nil) .nil }

/-- Thread with a single 300 ms (in nanoseconds) top-level block. -/
def c7ThreadB : ThreadData :=
  { threadId := 2, threadName := [], contextSwitches := [],
    blocks := .cons (.mk 0 300000000 0 [] .nil) .nil }

def c7Model : ProfileData :=
  { header := hdrZero, descriptors := [],
    threads := [(1, c7ThreadA), (2, c7ThreadB)], bookmarks := [],
    totalBlocksCount := 2, memoryUsedBytes := 0 }

theorem length_natLE (w v : Nat) : (natLE w v).length = w := by
  induction w generalizing v with
  | zero => rfl
  | succ w ih => simp [natLE, ih]

theorem leVal_cons (b : Nat) (bs : List Nat) :
    leVal (b :: bs) = b + 256 * leVal bs := rfl

theorem leVal_natLE (w v : Nat) : leVal (natLE w v) = v % 2 ^ (8 * w) := by
  induction w generalizing v with
  | zero => simp [natLE, leVal, Nat.mod_one]
  | succ w ih =>
      have h256 : (2 : Nat) ^ (8 * (w + 1)) = 256 * 2 ^ (8 * w) := by
        rw [Nat.mul_add, Nat.pow_add, Nat.mul_comm]
      rw [natLE, leVal_cons, ih, h256, Nat.mod_mul]

theorem readInt_natLE (w v : Nat) (hw : 0 < w)
    (hv : v < 2 ^ (8 * w)) (rest : List Nat) :
    readInt w (natLE w v ++ rest) = .ok (v, rest) := by
  have hlen : (natLE w v).length = w := length_natLE w v
  have hne : natLE w v ≠ [] := by
    intro h
    rw [h] at hlen
    simp at hlen
    omega
  unfold readInt
  rw [if_neg, if_neg, List.take_left' hlen, List.drop_left' hlen,
    leVal_natLE, Nat.mod_eq_of_lt hv]
  · simp [hlen]
  · simp [hne]

/-- C1: for each of the four version families (oldest: version < 1.3.0 with
32-bit pid; mid: 1.3.0 ≤ version < 2.0.0 with 64-bit pid; newer:
2.0.0 ≤ version < 2.1.0 with memory-size and descriptor-memory-size
preceding the counts; newest: version ≥ 2.1.0 adding thread-count,
bookmark-count and padding), decoding a synthetically constructed header
whose bytes encode fixed field values yields a `FileHeader` containing
exactly those field values, regardless of which layout was used. -/
theorem headerRoundTrip (f : HeaderFamily) (sig ver : Nat) (h : HeaderFields)
    (rest : List Nat) (hsig : sig < 2 ^ 32) (hver : versionInFamily f ver)
    (hf : fieldsInRange f h) :
    readHeader (encodeHeader f sig ver h ++ rest) =
      .ok (expectedHeader f sig ver h, rest) := by
  obtain ⟨hpid, hcpu, hbt, het, hms, hdms, hbc, hdc, htc, hbkc, hpad⟩ := hf
  cases f with
  | oldest =>
      simp only [versionInFamily] at hver
      simp only [pidWidth] at hpid
      have hver32 : ver < 2 ^ 32 := lt_trans hver (by norm_num [Version130])
      have h200 : ver < Version200 :=
        lt_trans hver (by norm_num [Version130, Version200])
      simp only [encodeHeader, pidWidth, List.append_assoc]
      simp only [readHeader, bind, Except.bind, pure, Except.pure]
      rw [readInt_natLE 4 sig (by norm_num) hsig]
      simp only []
      rw [readInt_natLE 4 ver (by norm_num) hver32]
      simp only []
      rw [if_pos hver, readInt_natLE 4 h.pid (by norm_num) hpid]
      simp only []
      rw [readInt_natLE 8 h.cpuFrequency (by norm_num) hcpu]
      simp only []
      rw [readInt_natLE 8 h.beginTime (by norm_num) hbt]
      simp only []
      rw [readInt_natLE 8 h.endTime (by norm_num) het]
      simp only []
      rw [if_pos h200, readInt_natLE 4 h.blocksCount (by norm_num) hbc]
      simp only []
      rw [readInt_natLE 8 h.memorySize (by norm_num) hms]
      simp only []
      rw [readInt_natLE 4 h.descriptorsCount (by norm_num) hdc]
      simp only []
      rw [readInt_natLE 8 h.descriptorsMemorySize (by norm_num) hdms]
      simp [expectedHeader]
  | mid =>
      simp only [versionInFamily] at hver
      obtain ⟨h130, h200⟩ := hver
      simp only [pidWidth] at hpid
      have hver32 : ver < 2 ^ 32 := lt_trans h200 (by norm_num [Version200])
      have hnot130 : ¬ ver < Version130 := not_lt.mpr h130
      simp only [encodeHeader, pidWidth, List.append_assoc]
      simp only [readHeader, bind, Except.bind, pure, Except.pure]
      rw [readInt_natLE 4 sig (by norm_num) hsig]
      simp only []
      rw [readInt_natLE 4 ver (by norm_num) hver32]
      simp only []
      rw [if_neg hnot130, readInt_natLE 8 h.pid (by norm_num) hpid]
      simp only []
      rw [readInt_natLE 8 h.cpuFrequency (by norm_num) hcpu]
      simp only []
      rw [readInt_natLE 8 h.beginTime (by norm_num) hbt]
      simp only []
      rw [readInt_natLE 8 h.endTime (by norm_num) het]
      simp only []
      rw [if_pos h200, readInt_natLE 4 h.blocksCount (by norm_num) hbc]
      simp only []
      rw [readInt_natLE 8 h.memorySize (by norm_num) hms]
      simp only []
      rw [readInt_natLE 4 h.descriptorsCount (by norm_num) hdc]
      simp only []
      rw [readInt_natLE 8 h.descriptorsMemorySize (by norm_num) hdms]
      simp [expectedHeader]
  | newer =>
      simp only [versionInFamily] at hver
      obtain ⟨h200, h210⟩ := hver
      simp only [pidWidth] at hpid
      have hver32 : ver < 2 ^ 32 := lt_trans h210 (by norm_num [Version210])
      have hnot130 : ¬ ver < Version130 :=
        not_lt.mpr (le_trans (by norm_num [Version130, Version200]) h200)
      have hnot200 : ¬ ver < Version200 := not_lt.mpr h200
      have hnot210 : ¬ Version210 ≤ ver := not_le.mpr h210
      simp only [encodeHeader, pidWidth, List.append_assoc]
      simp only [readHeader, bind, Except.bind, pure, Except.pure]
      rw [readInt_natLE 4 sig (by norm_num) hsig]
      simp only []
      rw [readInt_natLE 4 ver (by norm_num) hver32]
      simp only []
      rw [if_neg hnot130, readInt_natLE 8 h.pid (by norm_num) hpid]
      simp only []
      rw [readInt_natLE 8 h.cpuFrequency (by norm_num) hcpu]
      simp only []
      rw [readInt_natLE 8 h.beginTime (by norm_num) hbt]
      simp only []
      rw [readInt_natLE 8 h.endTime (by norm_num) het]
      simp only []
      rw [if_neg hnot200, readInt_natLE 8 h.memorySize (by norm_num) hms]
      simp only []
      rw [readInt_natLE 8 h.descriptorsMemorySize (by norm_num) hdms]
      simp only []
      rw [readInt_natLE 4 h.blocksCount (by norm_num) hbc]
      simp only []
      rw [readInt_natLE 4 h.descriptorsCount (by norm_num) hdc]
      simp only []
      rw [if_neg hnot210]
      simp [expectedHeader]
  | newest =>
      simp only [versionInFamily] at hver
      obtain ⟨h210, h32⟩ := hver
      simp only [pidWidth] at hpid
      have hnot130 : ¬ ver < Version130 :=
        not_lt.mpr (le_trans (by norm_num [Version130, Version210]) h210)
      have hnot200 : ¬ ver < Version200 :=
        not_lt.mpr (le_trans (by norm_num [Version200, Version210]) h210)
      simp only [encodeHeader, pidWidth, List.append_assoc]
      simp only [readHeader, bind, Except.bind, pure, Except.pure]
      rw [readInt_natLE 4 sig (by norm_num) hsig]
      simp only []
      rw [readInt_natLE 4 ver (by norm_num) h32]
      simp only []
      rw [if_neg hnot130, readInt_natLE 8 h.pid (by norm_num) hpid]
      simp only []
      rw [readInt_natLE 8 h.cpuFrequency (by norm_num) hcpu]
      simp only []
      rw [readInt_natLE 8 h.beginTime (by norm_num) hbt]
      simp only []
      rw [readInt_natLE 8 h.endTime (by norm_num) het]
      simp only []
      rw [if_neg hnot200, readInt_natLE 8 h.memorySize (by norm_num) hms]
      simp only []
      rw [readInt_natLE 8 h.descriptorsMemorySize (by norm_num) hdms]
      simp only []
      rw [readInt_natLE 4 h.blocksCount (by norm_num) hbc]
      simp only []
      rw [readInt_natLE 4 h.descriptorsCount (by norm_num) hdc]
      simp only []
      rw [if_pos h210, readInt_natLE 4 h.threadsCount (by norm_num) htc]
      simp only []
      rw [readInt_natLE 2 h.bookmarksCount (by norm_num) hbkc]
      simp only []
      rw [readInt_natLE 2 h.padding (by norm_num) hpad]
      simp [expectedHeader]

/-- Witness for C1: a concrete mid-family header with fixed field values
decodes to exactly those values. -/
theorem headerRoundTrip_witness :
    readHeader (encodeHeader .mid 0x45617379 0x01040000
        { pid := 77, cpuFrequency := 3000000, beginTime := 16, endTime := 32,
          memorySize := 1000, descriptorsMemorySize := 500, blocksCount := 6,
          descriptorsCount := 3, threadsCount := 9, bookmarksCount := 2,
          padding := 1 } ++ [7, 7]) =
      .ok (expectedHeader .mid 0x45617379 0x01040000
        { pid := 77, cpuFrequency := 3000000, beginTime := 16, endTime := 32,
          memorySize := 1000, descriptorsMemorySize := 500, blocksCount := 6,
          descriptorsCount := 3, threadsCount := 9, bookmarksCount := 2,
          padding := 1 }, [7, 7]) :=
  headerRoundTrip .mid 0x45617379 0x01040000 _ [7, 7] (by norm_num)
    (by constructor <;> norm_num [Version130, Version200])
    (by refine ⟨?_, ?_, ?_, ?_, ?_, ?_, ?_, ?_, ?_, ?_, ?_⟩ <;>
      norm_num [pidWidth])

theorem readBytes_exact (n : Nat) (bs rest : List Nat) (h : bs.length = n) :
    readBytes n (bs ++ rest) = .ok (bs, rest) := by
  rcases Nat.eq_zero_or_pos n with hn | hn
  · subst hn
    rw [List.length_eq_zero] at h
    subst h
    simp [readBytes]
  · have hne : bs ≠ [] := by
      intro hbs
      rw [hbs] at h
      simp at h
      omega
    have hne2 : bs ++ rest ≠ [] := by
      intro hc
      exact hne (List.append_eq_nil.mp hc).1
    have hlen : n ≤ (bs ++ rest).length := by
      rw [List.length_append, ← h]
      omega
    unfold readBytes
    rw [if_neg (by omega), if_neg (by simp [List.isEmpty_iff, hne2]),
      if_neg (not_lt.mpr hlen), List.take_left' h, List.drop_left' h]

theorem readBytes_all (n : Nat) (bs : List Nat) (h : bs.length = n) :
    readBytes n bs = .ok (bs, []) := by
  have := readBytes_exact n bs [] h
  simpa using this

theorem readBytes_zero (s : List Nat) : readBytes 0 s = .ok ([], s) := by
  simp [readBytes]

/-- C9: decoding a descriptor whose 16-bit name-length field is zero makes
the name-terminator strip `nameBytes[:len(nameBytes)-1]` index before the
start of the empty name buffer — a runtime panic (modelled `.oobSlice`),
not an empty-name descriptor and not an ordinary error. -/
theorem descriptorZeroNameLenPanics (size id line color ty st : Nat)
    (rest : List Nat) (hsize : size < 2 ^ 16) (hid : id < 2 ^ 32)
    (hline : line < 2 ^ 32) (hcolor : color < 2 ^ 32) (hty : ty < 2 ^ 8)
    (hst : st < 2 ^ 8) :
    readDescriptor (natLE 2 size ++ natLE 4 id ++ natLE 4 line ++
        natLE 4 color ++ natLE 1 ty ++ natLE 1 st ++ natLE 2 0 ++ rest) =
      .error .oobSlice := by
  simp only [List.append_assoc]
  simp only [readDescriptor, bind, Except.bind, pure, Except.pure]
  rw [readInt_natLE 2 size (by norm_num) hsize]
  simp only []
  rw [readInt_natLE 4 id (by norm_num) hid]
  simp only []
  rw [readInt_natLE 4 line (by norm_num) hline]
  simp only []
  rw [readInt_natLE 4 color (by norm_num) hcolor]
  simp only []
  rw [readInt_natLE 1 ty (by norm_num) hty]
  simp only []
  rw [readInt_natLE 1 st (by norm_num) hst]
  simp only []
  rw [readInt_natLE 2 0 (by norm_num) (by norm_num)]
  rfl

/-- Witness for C9 at a concrete descriptor record. -/
theorem descriptorZeroNameLenPanics_witness :
    readDescriptor (natLE 2 16 ++ natLE 4 1 ++ natLE 4 2 ++ natLE 4 3 ++
        natLE 1 1 ++ natLE 1 0 ++ natLE 2 0 ++ [9, 9]) = .error .oobSlice :=
  descriptorZeroNameLenPanics 16 1 2 3 1 0 [9, 9] (by norm_num) (by norm_num)
    (by norm_num) (by norm_num) (by norm_num) (by norm_num)

/-- Behaviour of `readDescriptor` on the concrete record of declared size
17 with name length 2: the `uint16` remainder wraps to 65535 and the
decoder reads that many file-path bytes from the following stream `L`. -/
theorem readDescriptorWrapHelper (L : List Nat) (hLlen : L.length = 65535) :
    readDescriptor (natLE 2 17 ++ natLE 4 1 ++ natLE 4 2 ++ natLE 4 3 ++
        natLE 1 1 ++ natLE 1 0 ++ natLE 2 2 ++ [97, 0] ++ L) =
      .ok ({ id := 1, line := 2, color := 3, type_ := 1, status := 0,
             name := [97], file := L.take 65534 }, []) := by
  simp only [List.append_assoc]
  simp only [readDescriptor, bind, Except.bind, pure, Except.pure]
  rw [readInt_natLE 2 17 (by norm_num) (by norm_num)]
  simp only []
  rw [readInt_natLE 4 1 (by norm_num) (by norm_num)]
  simp only []
  rw [readInt_natLE 4 2 (by norm_num) (by norm_num)]
  simp only []
  rw [readInt_natLE 4 3 (by norm_num) (by norm_num)]
  simp only []
  rw [readInt_natLE 1 1 (by norm_num) (by norm_num)]
  simp only []
  rw [readInt_natLE 1 0 (by norm_num) (by norm_num)]
  simp only []
  rw [readInt_natLE 2 2 (by norm_num) (by norm_num)]
  simp only []
  rw [readBytes_exact 2 [97, 0] _ (by norm_num)]
  simp only []
  rw [readBytes_all 65535 L hLlen]
  simp only []
  rw [hLlen]
  rw [if_neg (show ¬([97, 0] : List Nat).length = 0 by norm_num),
    if_pos (show (17 + 65536 - (16 + 2) % 65536) % 65536 > 0 by norm_num)]
  rfl

/-- C2 counterexample: a descriptor with declared size inconsistent with
its name-length field is NOT rejected with a format error — the `uint16`
remainder wraps to 65535 and, the stream having that many bytes, decoding
succeeds, consuming bytes far beyond the declared record. -/
theorem descriptorInconsistentSizeDecodes :
    17 < 16 + 2 ∧
      readDescriptor cexDescStream =
        .ok ({ id := 1, line := 2, color := 3, type_ := 1, status := 0,
               name := [97], file := List.replicate 65534 1 }, []) := by
  refine ⟨by norm_num, ?_⟩
  have h := readDescriptorWrapHelper (List.replicate 65534 1 ++ [0])
    (by rw [List.length_append, List.length_replicate, List.length_singleton])
  have htake : List.take 65534 (List.replicate 65534 (1 : Nat) ++ [0]) =
      List.replicate 65534 1 := List.take_left' (List.length_replicate 65534 1)
  rw [htake] at h
  exact h

theorem readBytes_pos_le (n : Nat) (s : List Nat) (h1 : 0 < n)
    (h2 : n ≤ s.length) : readBytes n s = .ok (s.take n, s.drop n) := by
  have hne : s ≠ [] := by
    intro h
    subst h
    simp at h2
    omega
  unfold readBytes
  rw [if_neg (by omega), if_neg (by simp [List.isEmpty_iff, hne]),
    if_neg (not_lt.mpr h2)]

theorem readBytes_nil (n : Nat) (h : 0 < n) :
    readBytes n ([] : List Nat) = .error .eof := by
  unfold readBytes
  rw [if_neg (by omega)]
  rfl

theorem readBytes_pos_short (n : Nat) (s : List Nat) (h1 : 0 < n)
    (h2 : s.length < n) (h3 : s ≠ []) :
    readBytes n s = .error .unexpectedEof := by
  unfold readBytes
  rw [if_neg (by omega), if_neg (by simp [List.isEmpty_iff, h3]), if_pos h2]

/-- Behaviour of `readDescriptor` on a record whose declared size is
inconsistent with its name-length field (`size < 16 + nameLength`): the
`uint16` remainder wraps to `size + 65536 - (16 + nameLength)` and the
decoder simply attempts to read that many file-path bytes. -/
theorem readDescriptor_wrapped (size id line color ty st nameLength : Nat)
    (nameBytes tail : List Nat) (hsize : size < 2 ^ 16) (hid : id < 2 ^ 32)
    (hline : line < 2 ^ 32) (hcolor : color < 2 ^ 32) (hty : ty < 2 ^ 8)
    (hst : st < 2 ^ 8) (hnl0 : 1 ≤ nameLength) (hnl : 16 + nameLength < 65536)
    (hincon : size < 16 + nameLength) (hnb : nameBytes.length = nameLength) :
    readDescriptor (natLE 2 size ++ natLE 4 id ++ natLE 4 line ++
        natLE 4 color ++ natLE 1 ty ++ natLE 1 st ++ natLE 2 nameLength ++
        nameBytes ++ tail) =
      match readBytes (size + 65536 - (16 + nameLength)) tail with
      | .ok (fileBytes, s2) =>
          .ok ({ id := id, line := line, color := color, type_ := ty,
                 status := st, name := nameBytes.take (nameLength - 1),
                 file := fileBytes.take (fileBytes.length - 1) }, s2)
      | .error e => .error e := by
  have hnbne : ¬ nameBytes.length = 0 := by omega
  have hw : (size + 65536 - (16 + nameLength) % 65536) % 65536 =
      size + 65536 - (16 + nameLength) := by
    rw [Nat.mod_eq_of_lt hnl]
    exact Nat.mod_eq_of_lt (by omega)
  simp only [List.append_assoc]
  simp only [readDescriptor, bind, Except.bind, pure, Except.pure]
  rw [readInt_natLE 2 size (by norm_num) hsize]
  simp only []
  rw [readInt_natLE 4 id (by norm_num) hid]
  simp only []
  rw [readInt_natLE 4 line (by norm_num) hline]
  simp only []
  rw [readInt_natLE 4 color (by norm_num) hcolor]
  simp only []
  rw [readInt_natLE 1 ty (by norm_num) hty]
  simp only []
  rw [readInt_natLE 1 st (by norm_num) hst]
  simp only []
  rw [readInt_natLE 2 nameLength (by norm_num) (by omega)]
  simp only []
  rw [readBytes_exact nameLength nameBytes _ hnb]
  simp only []
  rw [if_neg hnbne, hw]
  rw [if_pos (by omega), hnb]
  cases h2 : readBytes (size + 65536 - (16 + nameLength)) tail with
  | error e => simp only [h2]
  | ok fs =>
      obtain ⟨fb, s2⟩ := fs
      simp only [h2]

/-- C2 (amended): on a descriptor whose declared size is inconsistent
with its name-length field, the decoder neither panics nor checks
consistency: the `uint16` remainder wraps, and decoding succeeds exactly
when the stream still holds that many bytes, failing with an
end-of-stream error (never a format error, never a panic) otherwise. -/
theorem descriptorInconsistentSizeAmended (size id line color ty st
    nameLength : Nat) (nameBytes tail : List Nat) (hsize : size < 2 ^ 16)
    (hid : id < 2 ^ 32) (hline : line < 2 ^ 32) (hcolor : color < 2 ^ 32)
    (hty : ty < 2 ^ 8) (hst : st < 2 ^ 8) (hnl0 : 1 ≤ nameLength)
    (hnl : 16 + nameLength < 65536) (hincon : size < 16 + nameLength)
    (hnb : nameBytes.length = nameLength) :
    (size + 65536 - (16 + nameLength) ≤ tail.length →
      ∃ d s2, readDescriptor (natLE 2 size ++ natLE 4 id ++ natLE 4 line ++
          natLE 4 color ++ natLE 1 ty ++ natLE 1 st ++ natLE 2 nameLength ++
          nameBytes ++ tail) = .ok (d, s2)) ∧
    (tail.length < size + 65536 - (16 + nameLength) →
      readDescriptor (natLE 2 size ++ natLE 4 id ++ natLE 4 line ++
          natLE 4 color ++ natLE 1 ty ++ natLE 1 st ++ natLE 2 nameLength ++
          nameBytes ++ tail) = .error .eof ∨
      readDescriptor (natLE 2 size ++ natLE 4 id ++ natLE 4 line ++
          natLE 4 color ++ natLE 1 ty ++ natLE 1 st ++ natLE 2 nameLength ++
          nameBytes ++ tail) = .error .unexpectedEof) := by
  have heq := readDescriptor_wrapped size id line color ty st nameLength
    nameBytes tail hsize hid hline hcolor hty hst hnl0 hnl hincon hnb
  constructor
  · intro hle
    rw [heq, readBytes_pos_le _ _ (by omega) hle]
    exact ⟨_, _, rfl⟩
  · intro hgt
    rcases List.eq_nil_or_concat tail with htail | ⟨t2, b, rfl⟩
    · subst htail
      rw [heq, readBytes_nil _ (by omega)]
      left
      rfl
    · rw [heq, readBytes_pos_short _ _ (by omega) hgt (by simp)]
      right
      rfl

/-- Witness for the amended C2 theorem at a concrete inconsistent record
with enough trailing bytes. -/
theorem descriptorInconsistentSizeAmended_witness :
    ∃ d s2, readDescriptor (natLE 2 17 ++ natLE 4 1 ++ natLE 4 2 ++
        natLE 4 3 ++ natLE 1 1 ++ natLE 1 0 ++ natLE 2 2 ++ [97, 0] ++
        List.replicate 65535 5) = .ok (d, s2) :=
  (descriptorInconsistentSizeAmended 17 1 2 3 1 0 2 [97, 0]
      (List.replicate 65535 5) (by norm_num) (by norm_num) (by norm_num)
      (by norm_num) (by norm_num) (by norm_num) (by norm_num) (by norm_num)
      (by norm_num) (by norm_num)).1
    (by rw [List.length_replicate])

/-- C3 counterexample: on an oldest-family capture whose stream ends
exactly where the next thread identifier would start, `readThreads` does
NOT return successfully — it breaks out of the loop, fails the end
signature read, and returns an end-of-stream error, discarding the thread
already read. -/
theorem threadsEofCounterexample :
    readThreads DefaultReadOptions hdrOldC3 c3Stream = .error .eof := by
  have hthread : readThread DefaultReadOptions 5
      (natLE 2 0 ++ natLE 4 0 ++ natLE 4 0) = .ok (c3Thread, []) := rfl
  unfold readThreads
  rw [if_pos (by norm_num [hdrOldC3, Version210])]
  rw [show (4294967295 : Nat) = Nat.succ 4294967294 from rfl]
  rw [readThreadsAux.eq_2]
  rw [if_pos (by norm_num [hdrOldC3, Version130])]
  unfold c3Stream
  rw [readInt_natLE 4 5 (by norm_num) (by norm_num)]
  simp only []
  rw [if_neg (by norm_num [EasyProfilerSignature])]
  rw [hthread]
  simp only []
  rw [show (4294967294 : Nat) = Nat.succ 4294967293 from rfl]
  rw [readThreadsAux.eq_2]
  rw [if_pos (by norm_num [hdrOldC3, Version130])]
  rw [show readInt 4 ([] : List Nat) = .error .eof from rfl]
  simp only []
  unfold readThreadsEnd
  rw [show readInt 4 ([] : List Nat) = .error .eof from rfl]
  simp only []
  rw [if_neg (by norm_num)]

/-- C3 (amended): end-of-stream at a thread-identifier read is NOT a
normal end of the thread list: the loop breaks, the decoder then attempts
the 32-bit end-signature read, hits end-of-stream again, and — whenever
the threads read so far differ from the expected count, which for every
family older than the newest is the unreachable sentinel 0xFFFFFFFF —
`readThreads` returns an end-of-stream error; the threads accumulated so
far are dropped with it. -/
theorem threadsEofIsError (opts : ReadOptions)
    (version expectedThreads remaining threadsRead : Nat)
    (threads : List (Nat × ThreadData)) (hne : threadsRead ≠ expectedThreads) :
    readThreadsAux opts version expectedThreads (remaining + 1) threadsRead
      threads [] = .error .eof := by
  simp only [readThreadsAux]
  by_cases hv : version < Version130
  · rw [if_pos hv]
    rw [show readInt 4 ([] : List Nat) = .error .eof from rfl]
    simp only []
    unfold readThreadsEnd
    rw [show readInt 4 ([] : List Nat) = .error .eof from rfl]
    simp only []
    rw [if_neg hne]
  · rw [if_neg hv]
    rw [show readInt 8 ([] : List Nat) = .error .eof from rfl]
    simp only []
    unfold readThreadsEnd
    rw [show readInt 4 ([] : List Nat) = .error .eof from rfl]
    simp only []
    rw [if_neg hne]

/-- Witness for the amended C3 theorem: mid-list end-of-stream with one
thread already accumulated under the pre-2.1.0 sentinel count. -/
theorem threadsEofIsError_witness :
    readThreadsAux DefaultReadOptions 0x00010000 4294967295 (4294967294 + 1)
      1 [(5, c3Thread)] [] = .error .eof :=
  threadsEofIsError DefaultReadOptions 0x00010000 4294967295 4294967294 1
    [(5, c3Thread)] (by norm_num)

/-- C4: `MaxBlockDepth`, `SampleBlocks` and `MaxThreads` are accepted but
inert — decoding with `maxBlockDepth := 1`, `sampleBlocks := 2` and
`maxThreads := 1` yields a model identical to the default decode, still
containing both threads (2, not the requested cap of 1) and all three
top-level blocks (3, not every 2nd): the reader never consults these
options, contradicting their documented contract. -/
theorem fastOptionsInert :
    Parse c4Opts c4Stream = Parse DefaultReadOptions c4Stream ∧
    Parse DefaultReadOptions c4Stream = .ok c4Expected ∧
    c4Expected.threads.length = 2 ∧ c4Expected.totalBlocksCount = 3 :=
  ⟨rfl, rfl, rfl, rfl⟩

theorem length_insertByKeyDesc (key : α → Int) (a : α) (l : List α) :
    (insertByKeyDesc key a l).length = l.length + 1 := by
  induction l with
  | nil => rfl
  | cons b bs ih =>
      simp only [insertByKeyDesc]
      by_cases h : key b ≤ key a
      · rw [if_pos h]
        rfl
      · rw [if_neg h]
        simp [ih]

theorem mem_insertByKeyDesc {key : α → Int} {a x : α} {l : List α} :
    x ∈ insertByKeyDesc key a l ↔ x = a ∨ x ∈ l := by
  induction l with
  | nil => simp [insertByKeyDesc]
  | cons b bs ih =>
      simp only [insertByKeyDesc]
      by_cases h : key b ≤ key a
      · rw [if_pos h]
        simp
      · rw [if_neg h]
        simp only [List.mem_cons, ih]
        tauto

theorem pairwise_insertByKeyDesc (key : α → Int) (a : α) (l : List α)
    (h : l.Pairwise (fun u v => key v ≤ key u)) :
    (insertByKeyDesc key a l).Pairwise (fun u v => key v ≤ key u) := by
  induction l with
  | nil => simp [insertByKeyDesc]
  | cons b bs ih =>
      rw [List.pairwise_cons] at h
      obtain ⟨hb, hbs⟩ := h
      simp only [insertByKeyDesc]
      by_cases hab : key b ≤ key a
      · rw [if_pos hab]
        rw [List.pairwise_cons]
        refine ⟨?_, List.pairwise_cons.mpr ⟨hb, hbs⟩⟩
        intro x hx
        rcases List.mem_cons.mp hx with hx | hx
        · rw [hx]
          exact hab
        · exact le_trans (hb x hx) hab
      · rw [if_neg hab]
        rw [List.pairwise_cons]
        refine ⟨?_, ih hbs⟩
        intro x hx
        rcases mem_insertByKeyDesc.mp hx with hx | hx
        · rw [hx]
          exact le_of_lt (lt_of_not_le hab)
        · exact hb x hx

theorem length_sortByKeyDesc (key : α → Int) (l : List α) :
    (sortByKeyDesc key l).length = l.length := by
  induction l with
  | nil => rfl
  | cons b bs ih =>
      simp only [sortByKeyDesc, List.foldr_cons] at *
      rw [length_insertByKeyDesc, ih, List.length_cons]

theorem mem_sortByKeyDesc {key : α → Int} {x : α} {l : List α} :
    x ∈ sortByKeyDesc key l ↔ x ∈ l := by
  induction l with
  | nil => simp [sortByKeyDesc]
  | cons b bs ih =>
      simp only [sortByKeyDesc, List.foldr_cons] at *
      rw [mem_insertByKeyDesc, ih, List.mem_cons]

theorem pairwise_sortByKeyDesc (key : α → Int) (l : List α) :
    (sortByKeyDesc key l).Pairwise (fun u v => key v ≤ key u) := by
  induction l with
  | nil => simp [sortByKeyDesc]
  | cons b bs ih =>
      simp only [sortByKeyDesc, List.foldr_cons] at *
      exact pairwise_insertByKeyDesc key b _ ih

mutual
theorem length_analyzeBlock (descs : List (Nat × BlockDescriptor))
    (tid : Nat) (tn : List Nat) :
    (b : Block) → (analyzeBlock descs tid tn b).length = countBlock b
  | .mk begin_ end_ id bname children => by
      simp only [analyzeBlock, countBlock, List.length_cons,
        length_analyzeBlocks descs tid tn children]
      omega
theorem length_analyzeBlocks (descs : List (Nat × BlockDescriptor))
    (tid : Nat) (tn : List Nat) :
    (bs : BlockSeq) → (analyzeBlocks descs tid tn bs).length = countBlocks bs
  | .nil => rfl
  | .cons b bs => by
      simp only [analyzeBlocks, countBlocks, List.length_append,
        length_analyzeBlock descs tid tn b,
        length_analyzeBlocks descs tid tn bs]
end

theorem totalBlocksOf_go (ts : List (Nat × ThreadData)) (n : Nat) :
    ts.foldl (fun acc t => acc + countBlocks t.2.blocks) n =
      n + (ts.map (fun t => countBlocks t.2.blocks)).sum := by
  induction ts generalizing n with
  | nil => simp
  | cons t ts ih =>
      simp only [List.foldl_cons, List.map_cons, List.sum_cons, ih]
      omega

theorem length_flatten_analyze (descs : List (Nat × BlockDescriptor))
    (ts : List (Nat × ThreadData)) :
    (ts.foldr (fun t acc =>
        analyzeBlocks descs t.1 t.2.threadName t.2.blocks ++ acc) []).length =
      (ts.map (fun t => countBlocks t.2.blocks)).sum := by
  induction ts with
  | nil => rfl
  | cons t ts ih =>
      simp only [List.foldr_cons, List.length_append, List.map_cons,
        List.sum_cons, ih, length_analyzeBlocks]

theorem length_allBlocks (p : ProfileData) :
    (p.threads.foldr (fun t acc =>
        analyzeBlocks p.descriptors t.1 t.2.threadName t.2.blocks ++ acc)
        []).length = GetBlocksCount p := by
  rw [length_flatten_analyze, GetBlocksCount, totalBlocksOf,
    totalBlocksOf_go, Nat.zero_add]

/-- The clamp-then-slice tail shared by `GetSlowestBlocks` and
`GetHotspots`: for a nonnegative limit the result is defined, is a
sublist, and has length `min limit total`. -/
theorem clampSlice_spec (L : List α) (limit : Int) (hl : 0 ≤ limit) :
    ∃ l, goSliceTo L
        (if limit > (L.length : Int) then (L.length : Int) else limit) =
        some l ∧ l.length = min limit.toNat L.length ∧ l.Sublist L := by
  by_cases hc : limit > (L.length : Int)
  · rw [if_pos hc]
    unfold goSliceTo
    rw [if_pos ⟨by exact_mod_cast Nat.zero_le _, le_refl _⟩]
    refine ⟨_, rfl, ?_, List.take_sublist _ _⟩
    rw [List.length_take]
    omega
  · rw [if_neg hc]
    have h2 : limit ≤ (L.length : Int) := not_lt.mp hc
    unfold goSliceTo
    rw [if_pos ⟨hl, h2⟩]
    exact ⟨_, rfl, List.length_take _ _, List.take_sublist _ _⟩

/-- C5: for every decoded capture model and every nonnegative requested
limit, the slowest-events query succeeds with a list sorted non-increasing
by duration whose length is `min limit (total event count, nested children
included)`. -/
theorem slowestBlocksSortedLength (p : ProfileData) (limit : Int)
    (hl : 0 ≤ limit) :
    ∃ l, GetSlowestBlocks p limit = some l ∧
      l.length = min limit.toNat (GetBlocksCount p) ∧
      l.Pairwise (fun a b => b.duration ≤ a.duration) := by
  obtain ⟨l, hsl, hlen, hsub⟩ := clampSlice_spec
    (sortByKeyDesc (fun b : BlockInfo => b.duration)
      (p.threads.foldr (fun t acc =>
        analyzeBlocks p.descriptors t.1 t.2.threadName t.2.blocks ++ acc) []))
    limit hl
  refine ⟨l, hsl, ?_, ?_⟩
  · rw [hlen, length_sortByKeyDesc, length_allBlocks]
  · exact List.Pairwise.sublist hsub
      (pairwise_sortByKeyDesc (fun b : BlockInfo => b.duration) _)

/-- Witness for C5 on a concrete two-event model with limit 1. -/
theorem slowestBlocksSortedLength_witness :
    ∃ l, GetSlowestBlocks c6Model 1 = some l ∧
      l.length = min (1 : Int).toNat (GetBlocksCount c6Model) ∧
      l.Pairwise (fun a b => b.duration ≤ a.duration) :=
  slowestBlocksSortedLength c6Model 1 (by norm_num)

/-- C6 counterexample: a bucket with durations 1 and 2 has total 3 and
stored average `3 tdiv 2 = 1`, so call count times average is 2, not the
stored total 3 — the multiplication identity of the claim fails under
integer division. -/
theorem hotspotsAvgCounterexample :
    GetHotspots c6Model 10 = some [c6Bucket] ∧
      (c6Bucket.callCount : Int) * c6Bucket.avgDuration ≠ c6Bucket.duration :=
  ⟨rfl, by decide⟩

theorem bumpBucket_callCount_pos (key : List Nat) (info : BlockInfo)
    (l : List (List Nat × BlockInfo)) (hi : 0 < info.callCount)
    (h : ∀ kv ∈ l, 0 < (Prod.snd kv).callCount) :
    ∀ kv ∈ bumpBucket key info l, 0 < (Prod.snd kv).callCount := by
  induction l with
  | nil =>
      intro kv hkv
      simp only [bumpBucket, List.mem_singleton] at hkv
      rw [hkv]
      exact hi
  | cons ki rest ih =>
      intro kv hkv
      obtain ⟨k, i⟩ := ki
      simp only [bumpBucket] at hkv
      by_cases hk : k = key
      · rw [if_pos hk] at hkv
        rcases List.mem_cons.mp hkv with hkv | hkv
        · rw [hkv]
          simp
        · exact h kv (List.mem_cons_of_mem _ hkv)
      · rw [if_neg hk] at hkv
        rcases List.mem_cons.mp hkv with hkv | hkv
        · rw [hkv]
          exact h (k, i) (List.mem_cons_self _ _)
        · exact ih (fun kv2 hkv2 => h kv2 (List.mem_cons_of_mem _ hkv2)) kv hkv

mutual
theorem aggregateBlock_callCount_pos (descs : List (Nat × BlockDescriptor))
    (tid : Nat) (tn : List Nat) :
    (b : Block) → ∀ (acc : List (List Nat × BlockInfo)),
      (∀ kv ∈ acc, 0 < (Prod.snd kv).callCount) →
      ∀ kv ∈ aggregateBlock descs tid tn acc b, 0 < (Prod.snd kv).callCount
  | .mk begin_ end_ id bname children => fun acc hacc => by
      simp only [aggregateBlock]
      exact aggregateBlocks_callCount_pos descs tid tn children _
        (bumpBucket_callCount_pos _ _ _ (by norm_num) hacc)
theorem aggregateBlocks_callCount_pos (descs : List (Nat × BlockDescriptor))
    (tid : Nat) (tn : List Nat) :
    (bs : BlockSeq) → ∀ (acc : List (List Nat × BlockInfo)),
      (∀ kv ∈ acc, 0 < (Prod.snd kv).callCount) →
      ∀ kv ∈ aggregateBlocks descs tid tn acc bs, 0 < (Prod.snd kv).callCount
  | .nil => fun acc hacc => by simpa [aggregateBlocks] using hacc
  | .cons b bs => fun acc hacc => by
      simp only [aggregateBlocks]
      exact aggregateBlocks_callCount_pos descs tid tn bs _
        (aggregateBlock_callCount_pos descs tid tn b acc hacc)
end

theorem blockMap_callCount_pos (descs : List (Nat × BlockDescriptor))
    (ts : List (Nat × ThreadData)) (acc : List (List Nat × BlockInfo))
    (hacc : ∀ kv ∈ acc, 0 < (Prod.snd kv).callCount) :
    ∀ kv ∈ ts.foldl (fun acc t =>
        aggregateBlocks descs t.1 t.2.threadName acc t.2.blocks) acc,
      0 < (Prod.snd kv).callCount := by
  induction ts generalizing acc with
  | nil => simpa using hacc
  | cons t ts ih =>
      simp only [List.foldl_cons]
      exact ih _ (aggregateBlocks_callCount_pos descs t.1 t.2.threadName
        t.2.blocks acc hacc)

/-- C6 (amended): for every model and nonnegative limit, the hotspot
buckets come back sorted non-increasing by total duration, and each
bucket's stored average is its total duration integer-divided (truncated)
by its call count, the call count being positive — the exact
integer-division-safe form of the total/average relation. -/
theorem hotspotsSortedAvgAmended (p : ProfileData) (limit : Int)
    (hl : 0 ≤ limit) :
    ∃ l, GetHotspots p limit = some l ∧
      l.Pairwise (fun a b => b.duration ≤ a.duration) ∧
      ∀ b ∈ l, 0 < b.callCount ∧
        b.avgDuration = Int.tdiv b.duration (b.callCount : Int) := by
  set M := p.threads.foldl (fun acc t =>
      aggregateBlocks p.descriptors t.1 t.2.threadName acc t.2.blocks)
    ([] : List (List Nat × BlockInfo)) with hM
  set H := M.map (fun kv =>
    if kv.2.callCount > 0 then
      { kv.2 with avgDuration := Int.tdiv kv.2.duration (kv.2.callCount : Int) }
    else kv.2) with hH
  obtain ⟨l, hsl, hlen, hsub⟩ := clampSlice_spec
    (sortByKeyDesc (fun b : BlockInfo => b.duration) H) limit hl
  rw [hH, hM] at hsl
  refine ⟨l, hsl, ?_, ?_⟩
  · exact List.Pairwise.sublist hsub
      (pairwise_sortByKeyDesc (fun b : BlockInfo => b.duration) H)
  · intro b hb
    have hb3 : b ∈ H := mem_sortByKeyDesc.mp (hsub.subset hb)
    rw [hH] at hb3
    obtain ⟨kv, hkv, hbeq⟩ := List.mem_map.mp hb3
    rw [hM] at hkv
    have hpos : 0 < kv.2.callCount :=
      blockMap_callCount_pos p.descriptors p.threads [] (by simp) kv hkv
    rw [if_pos hpos] at hbeq
    rw [← hbeq]
    exact ⟨hpos, rfl⟩

/-- Witness for the amended C6 theorem on a concrete model. -/
theorem hotspotsSortedAvgAmended_witness :
    ∃ l, GetHotspots c6Model 10 = some l ∧
      l.Pairwise (fun a b => b.duration ≤ a.duration) ∧
      ∀ b ∈ l, 0 < b.callCount ∧
        b.avgDuration = Int.tdiv b.duration (b.callCount : Int) :=
  hotspotsSortedAvgAmended c6Model 10 (by norm_num)

theorem pairwise_head_ge (key : α → Int) (a : α) (l : List α)
    (h : (a :: l).Pairwise (fun u v => key v ≤ key u)) :
    ∀ x ∈ a :: l, key x ≤ key a := by
  intro x hx
  rcases List.mem_cons.mp hx with rfl | hx
  · exact le_refl _
  · exact (List.pairwise_cons.mp h).1 x hx

theorem pairwise_getLast_le (key : α → Int) :
    ∀ (l : List α) (hne : l ≠ []),
      l.Pairwise (fun u v => key v ≤ key u) →
      ∀ x ∈ l, key (l.getLast hne) ≤ key x
  | [], hne, _, _, _ => absurd rfl hne
  | [a], _, _, x, hx => by
      simp only [List.mem_singleton] at hx
      subst hx
      exact le_refl _
  | a :: b :: t, hne, h, x, hx => by
      rw [List.getLast_cons (List.cons_ne_nil b t)]
      rcases List.mem_cons.mp hx with rfl | hx2
      · exact (List.pairwise_cons.mp h).1 _
          (List.getLast_mem (List.cons_ne_nil b t))
      · exact pairwise_getLast_le key (b :: t) (List.cons_ne_nil b t)
          (List.pairwise_cons.mp h).2 x hx2

/-- In a descending sort whose result starts `s0 :: s1 :: rest`, the head
key is the maximum of the keys and the last key is the minimum. -/
theorem sorted_extremes (key : α → Int) (l : List α) (s0 s1 : α)
    (rest : List α) (hs : sortByKeyDesc key l = s0 :: s1 :: rest)
    (M m : Int) (hM : M ∈ l.map key) (hm : m ∈ l.map key)
    (hbound : ∀ d ∈ l.map key, m ≤ d ∧ d ≤ M) :
    key s0 = M ∧
      key ((s1 :: rest).getLast (List.cons_ne_nil s1 rest)) = m := by
  have hpair := pairwise_sortByKeyDesc key l
  rw [hs] at hpair
  constructor
  · obtain ⟨y, hy, hyM⟩ := List.mem_map.mp hM
    have hy2 : y ∈ s0 :: s1 :: rest := by
      rw [← hs]
      exact mem_sortByKeyDesc.mpr hy
    have h1 : key y ≤ key s0 := pairwise_head_ge key s0 (s1 :: rest) hpair y hy2
    have hs0l : s0 ∈ l := mem_sortByKeyDesc.mp
      (by rw [hs]; exact List.mem_cons_self _ _)
    have h2 : key s0 ≤ M := (hbound (key s0) (List.mem_map_of_mem key hs0l)).2
    exact le_antisymm h2 (hyM ▸ h1)
  · have hlast_full : (s0 :: s1 :: rest).getLast (List.cons_ne_nil s0 _) =
        (s1 :: rest).getLast (List.cons_ne_nil s1 rest) :=
      List.getLast_cons (List.cons_ne_nil s1 rest)
    have hlast_mem : (s1 :: rest).getLast (List.cons_ne_nil s1 rest) ∈
        s0 :: s1 :: rest :=
      List.mem_cons_of_mem _ (List.getLast_mem (List.cons_ne_nil s1 rest))
    have hlastl : (s1 :: rest).getLast (List.cons_ne_nil s1 rest) ∈ l :=
      mem_sortByKeyDesc.mp (by rw [hs]; exact hlast_mem)
    have h1 : m ≤ key ((s1 :: rest).getLast (List.cons_ne_nil s1 rest)) :=
      (hbound _ (List.mem_map_of_mem key hlastl)).1
    obtain ⟨z, hz, hzm⟩ := List.mem_map.mp hm
    have hz2 : z ∈ s0 :: s1 :: rest := by
      rw [← hs]
      exact mem_sortByKeyDesc.mpr hz
    have h2 := pairwise_getLast_le key (s0 :: s1 :: rest)
      (List.cons_ne_nil s0 _) hpair z hz2
    rw [hlast_full] at h2
    exact le_antisymm (hzm ▸ h2) h1

theorem pos_of_ratio_gt_two (M m : Int) (hmM : m ≤ M) (hm0 : m ≠ 0)
    (hr : 2 < (M : ℚ) / (m : ℚ)) : 0 < m := by
  by_contra hcon
  push_neg at hcon
  have hmneg : (m : ℚ) < 0 := by
    exact_mod_cast lt_of_le_of_ne hcon hm0
  have h2 : (M : ℚ) < 2 * (m : ℚ) := (lt_div_iff_of_neg hmneg).mp hr
  have hMm : (m : ℚ) ≤ (M : ℚ) := by exact_mod_cast hmM
  linarith

/-- C7: the thread-imbalance rule emits exactly one medium issue when the
capture has at least two threads, the minimum per-thread total duration m
is nonzero, and the max/min ratio exceeds 2; it emits nothing when the
ratio is at most 2 or the minimum is zero. -/
theorem threadImbalanceRule (p : ProfileData) (M m : Int)
    (hcount : 2 ≤ p.threads.length)
    (hM : M ∈ threadTotals p) (hm : m ∈ threadTotals p)
    (hbound : ∀ d ∈ threadTotals p, m ≤ d ∧ d ≤ M) :
    (m ≠ 0 → 2 < (M : ℚ) / (m : ℚ) →
      detectThreadImbalance p =
        [{ type_ := .threadImbalance, severity := .medium,
           duration := wrapInt64 (M - m), threadId := 0,
           threadName := [] }]) ∧
    ((m = 0 ∨ (M : ℚ) / (m : ℚ) ≤ 2) → detectThreadImbalance p = []) := by
  have hlen : (GetThreadStatistics p).length = p.threads.length := by
    unfold GetThreadStatistics
    rw [length_sortByKeyDesc, List.length_map]
  obtain ⟨s0, l0, hs0⟩ : ∃ s0 l0, GetThreadStatistics p = s0 :: l0 := by
    cases h : GetThreadStatistics p with
    | nil =>
        rw [h] at hlen
        simp at hlen
        omega
    | cons a l => exact ⟨a, l, rfl⟩
  obtain ⟨s1, rest, hs1⟩ : ∃ s1 rest, l0 = s1 :: rest := by
    cases h : l0 with
    | nil =>
        rw [h] at hs0
        rw [hs0] at hlen
        simp at hlen
        omega
    | cons a l => exact ⟨a, l, rfl⟩
  subst hs1
  have hsort : sortByKeyDesc (fun st : ThreadStats => st.totalDuration)
      (p.threads.map (mkThreadStats p)) = s0 :: s1 :: rest := hs0
  have hmap : (p.threads.map (mkThreadStats p)).map
      (fun st : ThreadStats => st.totalDuration) = threadTotals p := by
    rw [List.map_map]
    rfl
  obtain ⟨hmax, hmin⟩ := sorted_extremes
    (fun st : ThreadStats => st.totalDuration)
    (p.threads.map (mkThreadStats p)) s0 s1 rest hsort M m
    (by rw [hmap]; exact hM) (by rw [hmap]; exact hm)
    (by rw [hmap]; exact hbound)
  unfold detectThreadImbalance
  rw [hs0]
  simp only []
  constructor
  · intro hm0 hr
    have hmM : m ≤ M := (hbound m hm).2
    have hpos := pos_of_ratio_gt_two M m hmM hm0 hr
    rw [hmax, hmin, if_pos ⟨hpos, hr⟩]
  · intro hcase
    rw [hmax, hmin, if_neg ?hne]
    case hne =>
      rintro ⟨h1, h2⟩
      rcases hcase with rfl | hcase
      · exact lt_irrefl 0 h1
      · exact absurd h2 (not_lt.mpr hcase)

/-- Witness for C7: totals 100 ms and 300 ms (ratio 3.0) produce exactly
one medium Thread Imbalance issue. -/
theorem threadImbalanceRule_witness :
    detectThreadImbalance c7Model =
      [{ type_ := .threadImbalance, severity := .medium,
         duration := wrapInt64 ((300000000 : Int) - 100000000),
         threadId := 0, threadName := [] }] :=
  (threadImbalanceRule c7Model 300000000 100000000 (by decide) (by decide)
      (by decide) (by decide)).1 (by norm_num) (by norm_num)

/-- C8 counterexample: the decoder reads begin/end as raw 64-bit words and
never validates their order, and `Block.Duration` wraps: a block with
begin 1 and end 0 has duration −1 ns — the duration operation does yield
negative values. -/
theorem durationNegativeCounterexample :
    (Block.mk 1 0 0 [] .nil).duration = -1 ∧
      (Block.mk 1 0 0 [] .nil).duration < 0 := by
  constructor <;> decide

/-- C8 (amended): the duration is the wrapped `uint64` difference
reinterpreted as a signed 64-bit `time.Duration`; it equals end − begin
and is non-negative whenever begin ≤ end and the difference fits in 63
bits, but nothing clamps it — a block with end < begin (which the decoder
happily produces) yields a negative duration. -/
theorem durationNonNegAmended (blk : Block)
    (hb : blk.begin_ < 18446744073709551616)
    (he : blk.end_ < 18446744073709551616)
    (hle : blk.begin_ ≤ blk.end_)
    (hfit : blk.end_ - blk.begin_ < 9223372036854775808) :
    blk.duration = ((blk.end_ : Int) - (blk.begin_ : Int)) ∧
      0 ≤ blk.duration := by
  have hw : wrapSub64 blk.end_ blk.begin_ = blk.end_ - blk.begin_ := by
    unfold wrapSub64
    rw [Nat.mod_eq_of_lt he, Nat.mod_eq_of_lt hb]
    have harr : blk.end_ + 18446744073709551616 - blk.begin_ =
        18446744073709551616 + (blk.end_ - blk.begin_) := by omega
    rw [harr, Nat.add_mod_left, Nat.mod_eq_of_lt (by omega)]
  unfold Block.duration toInt64
  rw [hw, Nat.mod_eq_of_lt (by omega), if_pos hfit]
  constructor
  · omega
  · omega

/-- Witness for the amended C8 theorem: begin 0, end 5 gives duration 5. -/
theorem durationNonNegAmended_witness :
    (Block.mk 0 5 0 [] .nil).duration = ((5 : Int) - (0 : Int)) ∧
      0 ≤ (Block.mk 0 5 0 [] .nil).duration :=
  durationNonNegAmended (Block.mk 0 5 0 [] .nil) (by decide) (by decide)
    (by decide) (by decide)

theorem clampSlice_neg (L : List α) (limit : Int) (hl : limit < 0) :
    goSliceTo L
      (if limit > (L.length : Int) then (L.length : Int) else limit) = none := by
  rw [if_neg (by omega)]
  unfold goSliceTo
  rw [if_neg (by omega)]

/-- C10: the query limits are clamped only from above — a negative limit
reaches Go slicing `xs[:limit]` with a negative bound, a runtime panic
(modelled `none`), for both the slowest-events and hotspots queries,
whenever any events exist. -/
theorem negativeLimitPanics (p : ProfileData) (limit : Int)
    (hl : limit < 0) (hev : 0 < GetBlocksCount p) :
    GetSlowestBlocks p limit = none ∧ GetHotspots p limit = none := by
  constructor
  · unfold GetSlowestBlocks
    exact clampSlice_neg _ limit hl
  · unfold GetHotspots
    exact clampSlice_neg _ limit hl

/-- Witness for C10 on a concrete two-event model with limit −1. -/
theorem negativeLimitPanics_witness :
    GetSlowestBlocks c6Model (-1) = none ∧ GetHotspots c6Model (-1) = none :=
  negativeLimitPanics c6Model (-1) (by norm_num) (by decide)

end EasyProfiler

